import Mathlib

/-!
Verification development for the datafuse replicated metadata catalog.

The repository's consensus core (catalog state machine, consensus engine,
request router) is specified in `spec.md`; the query-layer source files
(`data_array_logic.rs`, `parquet_table.rs`) are embedded directly.
-/

namespace Datafuse

/-! ## Association-list primitives

The catalog maps `name → DatabaseMeta` and `name → TableMeta` are modelled
as association lists in which live names are unique. -/

def getEntry {α : Type} (k : String) : List (String × α) → Option α
  | [] => none
  | (k', v) :: rest => if k' = k then some v else getEntry k rest

def removeEntry {α : Type} (k : String) : List (String × α) → List (String × α)
  | [] => []
  | (k', v) :: rest =>
      if k' = k then removeEntry k rest else (k', v) :: removeEntry k rest

def setEntry {α : Type} (k : String) (v : α) : List (String × α) → List (String × α)
  | [] => []
  | (k', v') :: rest =>
      if k' = k then (k, v) :: rest else (k', v') :: setEntry k v rest

/-! ## Catalog State Machine

Modelled from the spec: the Catalog State Machine of §3 and §4.1 is not
under `src/` (only its cross-node integration tests are), so its data model
and `apply` contract are taken from the spec's words: snapshot
`{databases, last_applied_index, last_applied_term, change_version}`,
commands CreateDatabase/DropDatabase/CreateTable/DropTable with their
`if_not_exists`/`if_exists` semantics, `change_version` bumped on every
successful mutation, and pure read operations.  Identifiers and
`created_on` stamps are derived deterministically from the applied log
index; `ConfigChange` entries act on cluster membership, not the catalog,
and are kept out of the catalog command type. -/

structure TableMeta where
  id : Nat
  schema : String
  created_on : Nat
deriving DecidableEq, Repr

structure DatabaseMeta where
  id : Nat
  created_on : Nat
  tables : List (String × TableMeta)
deriving DecidableEq, Repr

structure CatalogSnapshot where
  databases : List (String × DatabaseMeta)
  last_applied_index : Nat
  last_applied_term : Nat
  change_version : Nat
deriving DecidableEq, Repr

inductive ErrKind where
  | AlreadyExists
  | NotFound
deriving DecidableEq, Repr

inductive Effect where
  | dbCreated (id : Nat)
  | dbDropped
  | tableCreated (id : Nat)
  | tableDropped
  | noop
deriving DecidableEq, Repr

inductive Cmd where
  | createDatabase (name : String) (if_not_exists : Bool)
  | dropDatabase (name : String) (if_exists : Bool)
  | createTable (db name schema : String) (if_not_exists : Bool)
  | dropTable (db name : String) (if_exists : Bool)
deriving DecidableEq, Repr

/-- Modelled from the spec: `create_database(name, if_not_exists)` — fails
with AlreadyExists unless the flag is set (no-op success); on creation bumps
`change_version`.  Every applied entry records `last_applied_index`. -/
def create_database (s : CatalogSnapshot) (index : Nat) (name : String)
    (if_not_exists : Bool) : CatalogSnapshot × Except ErrKind Effect :=
  match getEntry name s.databases with
  | some _ =>
      if if_not_exists then
        ({ s with last_applied_index := index }, .ok .noop)
      else
        ({ s with last_applied_index := index }, .error .AlreadyExists)
  | none =>
      ({ s with
          databases := (name, ⟨index, index, []⟩) :: s.databases,
          change_version := s.change_version + 1,
          last_applied_index := index },
        .ok (.dbCreated index))

/-- Modelled from the spec: `drop_database(name, if_exists)` — fails with
NotFound unless the flag is set (no-op success). -/
def drop_database (s : CatalogSnapshot) (index : Nat) (name : String)
    (if_exists : Bool) : CatalogSnapshot × Except ErrKind Effect :=
  match getEntry name s.databases with
  | none =>
      if if_exists then
        ({ s with last_applied_index := index }, .ok .noop)
      else
        ({ s with last_applied_index := index }, .error .NotFound)
  | some _ =>
      ({ s with
          databases := removeEntry name s.databases,
          change_version := s.change_version + 1,
          last_applied_index := index },
        .ok .dbDropped)

/-- Modelled from the spec: `create_table(db, name, schema, if_not_exists)`
— scoped to an existing database (NotFound otherwise). -/
def create_table (s : CatalogSnapshot) (index : Nat) (db name schema : String)
    (if_not_exists : Bool) : CatalogSnapshot × Except ErrKind Effect :=
  match getEntry db s.databases with
  | none => ({ s with last_applied_index := index }, .error .NotFound)
  | some dmeta =>
      match getEntry name dmeta.tables with
      | some _ =>
          if if_not_exists then
            ({ s with last_applied_index := index }, .ok .noop)
          else
            ({ s with last_applied_index := index }, .error .AlreadyExists)
      | none =>
          ({ s with
              databases := setEntry db
                { dmeta with tables := (name, ⟨index, schema, index⟩) :: dmeta.tables }
                s.databases,
              change_version := s.change_version + 1,
              last_applied_index := index },
            .ok (.tableCreated index))

/-- Modelled from the spec: `drop_table(db, name, if_exists)` — dropping a
table in a non-existent database is NotFound regardless of `if_exists`. -/
def drop_table (s : CatalogSnapshot) (index : Nat) (db name : String)
    (if_exists : Bool) : CatalogSnapshot × Except ErrKind Effect :=
  match getEntry db s.databases with
  | none => ({ s with last_applied_index := index }, .error .NotFound)
  | some dmeta =>
      match getEntry name dmeta.tables with
      | none =>
          if if_exists then
            ({ s with last_applied_index := index }, .ok .noop)
          else
            ({ s with last_applied_index := index }, .error .NotFound)
      | some _ =>
          ({ s with
              databases := setEntry db
                { dmeta with tables := removeEntry name dmeta.tables }
                s.databases,
              change_version := s.change_version + 1,
              last_applied_index := index },
            .ok .tableDropped)

/-- Modelled from the spec: `apply(command, index)` — deterministic dispatch
over the catalog commands. -/
def applyCmd (s : CatalogSnapshot) (index : Nat) (cmd : Cmd) :
    CatalogSnapshot × Except ErrKind Effect :=
  match cmd with
  | .createDatabase name f => create_database s index name f
  | .dropDatabase name f => drop_database s index name f
  | .createTable db name schema f => create_table s index db name schema f
  | .dropTable db name f => drop_table s index db name f

/-- Modelled from the spec: pure read `get_database(name)`. -/
def get_database (s : CatalogSnapshot) (name : String) : Option DatabaseMeta :=
  getEntry name s.databases

/-- Modelled from the spec: pure read `list_databases()` — all live
(non-dropped) databases. -/
def list_databases (s : CatalogSnapshot) : List (String × DatabaseMeta) :=
  s.databases

/-- Modelled from the spec: pure read `get_table(db, name)`. -/
def get_table (s : CatalogSnapshot) (db name : String) : Option TableMeta :=
  match getEntry db s.databases with
  | none => none
  | some dmeta => getEntry name dmeta.tables

/-- Modelled from the spec: a committed log entry `{index, term, command}`. -/
structure LogEntry where
  index : Nat
  term : Nat
  cmd : Cmd
deriving DecidableEq, Repr

/-- Modelled from the spec: the freshly initialized state machine. -/
def initSnapshot : CatalogSnapshot := ⟨[], 0, 0, 0⟩

/-- Applying one committed entry (state part). -/
def applyEntry (s : CatalogSnapshot) (e : LogEntry) : CatalogSnapshot :=
  (applyCmd s e.index e.cmd).1

/-- Replaying a sequence of committed entries in order. -/
def applyAll (s : CatalogSnapshot) (es : List LogEntry) : CatalogSnapshot :=
  es.foldl applyEntry s

/-- The sequence of outputs produced by applying entries in order. -/
def runOutputs (s : CatalogSnapshot) : List LogEntry → List (Except ErrKind Effect)
  | [] => []
  | e :: rest => (applyCmd s e.index e.cmd).2 :: runOutputs (applyEntry s e) rest

/-! ## Consensus Engine: election state

Modelled from the spec: the Consensus Engine of §4.2 is not under `src/`,
so roles, terms, vote grants and the role-transition table are taken from
the spec's words: a node is `{role ∈ {Follower, Candidate, Leader},
current_term, voted_for}`; Follower → Candidate on election timeout
(increments term, votes for itself); Candidate → Leader on a majority of
votes in the same term; Candidate → Follower on a valid current-leader
AppendEntries; any role → Follower on discovering a higher term.  A node
grants at most one vote per term.  `votedFor` maps each term to the
candidate this node voted for in that term (the spec's `voted_for` is its
value at `current_term`); logs and the up-to-dateness check on votes are
not modelled, as they only restrict vote grants further. -/

inductive Role where
  | Follower
  | Candidate
  | Leader
deriving DecidableEq, Repr

structure NodeState (n : Nat) where
  role : Role
  currentTerm : Nat
  votedFor : Nat → Option (Fin n)

structure ClusterState (n : Nat) where
  nodes : Fin n → NodeState n

/-- The set of nodes whose vote in term `t` went to candidate `c`. -/
def votesFor {n : Nat} (s : ClusterState n) (t : Nat) (c : Fin n) : Finset (Fin n) :=
  Finset.univ.filter (fun v => (s.nodes v).votedFor t = some c)

/-- Strict majority of the `n`-node membership. -/
def IsMajority (n : Nat) (k : Nat) : Prop := n < 2 * k

instance (n k : Nat) : Decidable (IsMajority n k) := by
  unfold IsMajority; infer_instance

/-- Replace node `i`'s state. -/
def updNode {n : Nat} (s : ClusterState n) (i : Fin n) (ns : NodeState n) :
    ClusterState n :=
  ⟨fun j => if j = i then ns else s.nodes j⟩

inductive Event (n : Nat) where
  /-- Election timeout at node `i`: start an election for the next term. -/
  | timeout (i : Fin n)
  /-- Node `v` grants its vote in term `t` to candidate `c`. -/
  | grantVote (v c : Fin n) (t : Nat)
  /-- Candidate `c` wins: a strict majority voted for it in its term. -/
  | becomeLeader (c : Fin n)
  /-- Node `i` discovers a higher term `t` and reverts to Follower. -/
  | observeTerm (i : Fin n) (t : Nat)
  /-- Candidate `i` receives a valid AppendEntries from a current leader. -/
  | heardLeader (i : Fin n)

/-- Modelled from the spec: one serialized transition of the cluster's
election state (§4.2 transition table).  Events whose preconditions fail
leave the state unchanged. -/
def step {n : Nat} (s : ClusterState n) (e : Event n) : ClusterState n :=
  match e with
  | .timeout i =>
      let ni := s.nodes i
      let t := ni.currentTerm + 1
      if ni.role ≠ Role.Leader ∧ ni.votedFor t = none then
        updNode s i
          ⟨Role.Candidate, t, fun t' => if t' = t then some i else ni.votedFor t'⟩
      else s
  | .grantVote v c t =>
      let nv := s.nodes v
      if nv.currentTerm ≤ t ∧ nv.votedFor t = none then
        updNode s v
          ⟨if nv.currentTerm < t then Role.Follower else nv.role, t,
            fun t' => if t' = t then some c else nv.votedFor t'⟩
      else s
  | .becomeLeader c =>
      let nc := s.nodes c
      if nc.role = Role.Candidate ∧
          IsMajority n (votesFor s nc.currentTerm c).card then
        updNode s c ⟨Role.Leader, nc.currentTerm, nc.votedFor⟩
      else s
  | .observeTerm i t =>
      let ni := s.nodes i
      if ni.currentTerm < t then
        updNode s i ⟨Role.Follower, t, ni.votedFor⟩
      else s
  | .heardLeader i =>
      let ni := s.nodes i
      if ni.role = Role.Candidate then
        updNode s i ⟨Role.Follower, ni.currentTerm, ni.votedFor⟩
      else s

/-- Modelled from the spec: every node starts as a Follower at term 0
having granted no votes. -/
def initCluster (n : Nat) : ClusterState n :=
  ⟨fun _ => ⟨Role.Follower, 0, fun _ => none⟩⟩

/-- A reachable cluster state: the result of a sequence of events from the
initial state. -/
def runCluster (n : Nat) (evs : List (Event n)) : ClusterState n :=
  evs.foldl step (initCluster n)

/-! ## Consensus Engine: commit-index advancement

Modelled from the spec: the leader's replication bookkeeping of §4.2 is not
under `src/`.  Per the spec, the leader advances `commit_index` to the
highest index durably replicated (acknowledged) on a strict majority of
nodes including itself, and only entries tagged with the leader's own
current term may advance it directly.  `log` holds the term of each entry
(1-based indices); `matchIndex v` is the highest index known durably
appended on node `v`, the leader's own entry included among the `n`. -/

structure LeaderState (n : Nat) where
  log : List Nat
  currentTerm : Nat
  commitIndex : Nat
  matchIndex : Fin n → Nat

/-- Term of the entry at 1-based index `i` (0 when out of range). -/
def termAt {n : Nat} (st : LeaderState n) (i : Nat) : Nat :=
  st.log.getD (i - 1) 0

/-- Number of nodes (leader included) that durably hold index `i`. -/
def ackCount {n : Nat} (st : LeaderState n) (i : Nat) : Nat :=
  (Finset.univ.filter (fun v => i ≤ st.matchIndex v)).card

/-- Modelled from the spec: index `i` may directly become the commit index
if it is past the current commit point, within the log, acknowledged by a
strict majority, and tagged with the leader's own current term. -/
def commitOk {n : Nat} (st : LeaderState n) (i : Nat) : Prop :=
  st.commitIndex < i ∧ i ≤ st.log.length ∧
    IsMajority n (ackCount st i) ∧ termAt st i = st.currentTerm

instance {n : Nat} (st : LeaderState n) (i : Nat) : Decidable (commitOk st i) := by
  unfold commitOk; infer_instance

/-- Scan indices `k, k-1, ..., 1` for the highest commit-eligible one. -/
def findCommit {n : Nat} (st : LeaderState n) : Nat → Nat
  | 0 => st.commitIndex
  | k + 1 => if commitOk st (k + 1) then k + 1 else findCommit st k

/-- Modelled from the spec: the leader advances `commit_index` to the
highest directly eligible index, or leaves it unchanged. -/
def advanceCommit {n : Nat} (st : LeaderState n) : Nat :=
  findCommit st st.log.length

/-! ## Request Router / Proxy Layer

Modelled from the spec: the router of §4.3 is not under `src/` (only the
follower-to-follower integration tests are).  Each node holds its own
locally applied snapshot, which may lag behind the leader's; a mutation
submitted at any node is forwarded to the leader, which proposes it,
commits it and applies it to its own state before acknowledging, while the
followers' local states are not yet updated.  A leader read is answered
from the local applied state only when the answering node is the leader;
a follower proxies it to the leader. -/

structure RouterSystem (n : Nat) where
  leaderId : Fin n
  applied : Fin n → CatalogSnapshot

/-- Modelled from the spec: a mutation arriving at `origin` is forwarded to
the leader, committed, and applied to the leader's state; the acknowledgement
carries the state machine's result.  Followers apply later (not yet here). -/
def submitMutation {n : Nat} (sys : RouterSystem n) (_origin : Fin n)
    (index : Nat) (cmd : Cmd) : RouterSystem n × Except ErrKind Effect :=
  let r := applyCmd (sys.applied sys.leaderId) index cmd
  ({ sys with
      applied := fun j => if j = sys.leaderId then r.1 else sys.applied j },
    r.2)

/-- Modelled from the spec: a leader read issued at `origin` — answered
locally only if `origin` is the leader, otherwise proxied to the leader and
answered from the leader's applied state. -/
def leaderRead {n : Nat} {α : Type} (sys : RouterSystem n) (origin : Fin n)
    (q : CatalogSnapshot → α) : α :=
  if origin = sys.leaderId then q (sys.applied origin)
  else q (sys.applied sys.leaderId)

/-! ## `src/common/datavalues/src/data_array_logic.rs`

Boolean columnar logic.  Arrays are embedded as boolean arrays
(`List Bool`): the source downcasts its operands to `BooleanArray` and the
claims under scrutiny concern only the boolean path.  Error values are
embedded by constructor kind (`BadDataValueType` carries a formatted
message in the source, which is incidental to behaviour). -/

inductive DataValue where
  /-- `DataValue::UInt64(Option<u64>)`. -/
  | UInt64 (v : Option Nat)
  /-- `DataValue::Boolean(Option<bool>)`. -/
  | Boolean (v : Option Bool)
  /-- Any other `DataValue` variant (all are rejected by negation). -/
  | OtherValue
deriving DecidableEq, Repr

inductive DataColumnarValue where
  | Array (arr : List Bool)
  | Constant (v : DataValue) (size : Nat)
deriving DecidableEq, Repr

instance : Inhabited DataColumnarValue := ⟨.Array []⟩

inductive DataValueLogicOperator where
  | And
  | Or
  | Not
deriving DecidableEq, Repr

inductive ErrorCodes where
  | BadDataValueType
  | ArrowError
deriving DecidableEq, Repr

/-- `common_arrow::arrow::compute::and`: element-wise AND, erroring when the
operand lengths differ. -/
def arrow_and (a b : List Bool) : Except ErrorCodes (List Bool) :=
  if a.length = b.length then .ok (List.zipWith (fun x y => x && y) a b)
  else .error .ArrowError

/-- `common_arrow::arrow::compute::or`: element-wise OR, erroring when the
operand lengths differ. -/
def arrow_or (a b : List Bool) : Except ErrorCodes (List Bool) :=
  if a.length = b.length then .ok (List.zipWith (fun x y => x || y) a b)
  else .error .ArrowError

/-- `DataArrayLogic::data_array_logic_binary`: on two `Array` operands,
`And` runs element-wise AND and any other operator runs element-wise OR;
any non-`Array` operand is a `BadDataValueType` error. -/
def data_array_logic_binary (op : DataValueLogicOperator)
    (left right : DataColumnarValue) : Except ErrorCodes (List Bool) :=
  match left, right with
  | .Array la, .Array ra =>
      if op = .And then arrow_and la ra else arrow_or la ra
  | _, _ => .error .BadDataValueType

/-- `DataArrayLogic::data_array_negation`: element-wise NOT of a boolean
array; a `UInt64(Some v)` constant is coerced to the boolean `v != 0`,
negated, and expanded to its size; other constants are errors. -/
def data_array_negation (val : DataColumnarValue) : Except ErrorCodes (List Bool) :=
  match val with
  | .Array arr => .ok (arr.map (fun b => !b))
  | .Constant v size =>
      match v with
      | .UInt64 (some vi) => .ok (List.replicate size (!(vi ≠ 0 : Bool)))
      | _ => .error .BadDataValueType

/-- `DataArrayLogic::data_array_logic_op`: `Not` takes the unary path on
`args[0]`; every other operator takes the binary path on `args[0]`,
`args[1]`.  The source indexes the slice directly (panicking when absent);
the embedding reads with a default that the claims never reach. -/
def data_array_logic_op (op : DataValueLogicOperator)
    (args : List DataColumnarValue) : Except ErrorCodes (List Bool) :=
  match op with
  | .Not => data_array_negation (args.getD 0 default)
  | _ => data_array_logic_binary op (args.getD 0 default) (args.getD 1 default)

/-! ## `src/fusequery/query/src/datasources/local/parquet_table.rs`

`ParquetTable::try_create`.  `TableOptions` (a string map) is embedded as
an association list; `DataSchemaRef` is an opaque type parameter. -/

def TableOptions : Type := List (String × String)

structure ParquetTable (Schema : Type) where
  db : String
  name : String
  schema : Schema
  file : String

/-- `str::trim_matches`: strip every leading and every trailing character
matching the pattern. -/
def trimMatches (p : Char → Bool) (s : String) : String :=
  ⟨((s.data.dropWhile p).reverse.dropWhile p).reverse⟩

/-- The pattern `|s| s == '\'' || s == '"'` from the source: codepoint 39
is the single quote, 34 the double quote. -/
def isQuoteChar (c : Char) : Bool :=
  c = Char.ofNat 39 || c = Char.ofNat 34

/-- `ParquetTable::try_create`: requires the `"location"` option, storing
its value with leading/trailing quote characters trimmed; bails with an
error otherwise. -/
def ParquetTable.try_create {Schema : Type} (db name : String) (schema : Schema)
    (options : TableOptions) : Except String (ParquetTable Schema) :=
  match getEntry "location" options with
  | some file => .ok ⟨db, name, schema, trimMatches isQuoteChar file⟩
  | none => .error "Parquet Engine must contains file location options"

/-! ## Association-list lemmas -/

/-- Keys of a catalog map are unique among live entries. -/
def NodupKeys {α : Type} (l : List (String × α)) : Prop :=
  (l.map Prod.fst).Nodup

theorem getEntry_eq_none {α : Type} (k : String) (l : List (String × α)) :
    getEntry k l = none ↔ k ∉ l.map Prod.fst := by
  induction l with
  | nil => simp [getEntry]
  | cons p rest ih =>
      obtain ⟨k', v⟩ := p
      by_cases hk : k' = k
      · subst hk
        simp [getEntry]
      · simp only [getEntry, if_neg hk, List.map_cons, List.mem_cons]
        rw [ih]
        constructor
        · intro hnot hor
          rcases hor with heq | hmem
          · exact hk heq.symm
          · exact hnot hmem
        · intro hnot hmem
          exact hnot (Or.inr hmem)

theorem removeEntry_sublist {α : Type} (k : String) (l : List (String × α)) :
    List.Sublist (removeEntry k l) l := by
  induction l with
  | nil => simp [removeEntry]
  | cons p rest ih =>
      obtain ⟨k', v⟩ := p
      simp only [removeEntry]
      split
      · exact ih.trans (List.sublist_cons_self _ _)
      · exact ih.cons₂ _

theorem map_fst_setEntry {α : Type} (k : String) (v : α) (l : List (String × α)) :
    (setEntry k v l).map Prod.fst = l.map Prod.fst := by
  induction l with
  | nil => rfl
  | cons p rest ih =>
      obtain ⟨k', v'⟩ := p
      simp only [setEntry]
      split
      · rename_i h
        simp [h]
      · simp [ih]

theorem getEntry_setEntry {α : Type} (k : String) (v : α) (l : List (String × α))
    (w : α) (h : getEntry k l = some w) : getEntry k (setEntry k v l) = some v := by
  induction l with
  | nil => simp [getEntry] at h
  | cons p rest ih =>
      obtain ⟨k', v'⟩ := p
      by_cases hk : k' = k
      · simp [getEntry, setEntry, hk]
      · simp only [getEntry, setEntry, if_neg hk] at h ⊢
        exact ih h

theorem getEntry_some_iff_mem {α : Type} (k : String) (v : α)
    (l : List (String × α)) (h : NodupKeys l) :
    getEntry k l = some v ↔ (k, v) ∈ l := by
  induction l with
  | nil => simp [getEntry]
  | cons p rest ih =>
      obtain ⟨k', v'⟩ := p
      have h' := h
      simp only [NodupKeys, List.map_cons, List.nodup_cons] at h'
      obtain ⟨hnotin, hrest⟩ := h'
      by_cases hk : k' = k
      · subst hk
        simp only [getEntry, if_pos rfl, List.mem_cons]
        constructor
        · intro hv
          exact Or.inl (by cases hv; rfl)
        · intro hv
          rcases hv with heq | hmem
          · cases heq; rfl
          · exact absurd (List.mem_map_of_mem Prod.fst hmem) hnotin
      · simp only [getEntry, if_neg hk, List.mem_cons]
        rw [ih hrest]
        constructor
        · exact fun hm => Or.inr hm
        · intro hm
          rcases hm with heq | hmem
          · exact absurd (congrArg Prod.fst heq).symm hk
          · exact hmem

/-! ## Catalog State Machine lemmas -/

theorem applyAll_nil (s : CatalogSnapshot) : applyAll s [] = s := rfl

theorem applyAll_cons (s : CatalogSnapshot) (e : LogEntry) (es : List LogEntry) :
    applyAll s (e :: es) = applyAll (applyEntry s e) es := rfl

theorem applyAll_append (s : CatalogSnapshot) (es1 es2 : List LogEntry) :
    applyAll s (es1 ++ es2) = applyAll (applyAll s es1) es2 := by
  simp [applyAll]

theorem runOutputs_cons (s : CatalogSnapshot) (e : LogEntry) (es : List LogEntry) :
    runOutputs s (e :: es)
      = (applyCmd s e.index e.cmd).2 :: runOutputs (applyEntry s e) es := rfl

theorem runOutputs_append (es1 es2 : List LogEntry) : ∀ s : CatalogSnapshot,
    runOutputs s (es1 ++ es2) = runOutputs s es1 ++ runOutputs (applyAll s es1) es2 := by
  induction es1 with
  | nil => intro s; simp [runOutputs, applyAll_nil]
  | cons e rest ih =>
      intro s
      rw [show (e :: rest) ++ es2 = e :: (rest ++ es2) from rfl, runOutputs_cons, ih,
        runOutputs_cons, applyAll_cons, List.cons_append]

/-- Every successfully applied mutation (a success that is not a no-op)
strictly increases `change_version`. -/
theorem change_version_strict (s : CatalogSnapshot) (i : Nat) (cmd : Cmd)
    (eff : Effect) (hok : (applyCmd s i cmd).2 = .ok eff) (hne : eff ≠ .noop) :
    s.change_version < (applyCmd s i cmd).1.change_version := by
  cases cmd with
  | createDatabase name f =>
      simp only [applyCmd, create_database] at hok ⊢
      rcases hdb : getEntry name s.databases with _ | d <;>
        simp only [hdb] at hok ⊢
      · simp
      · cases f <;> simp_all
  | dropDatabase name f =>
      simp only [applyCmd, drop_database] at hok ⊢
      rcases hdb : getEntry name s.databases with _ | d <;>
        simp only [hdb] at hok ⊢
      · cases f <;> simp_all
      · simp
  | createTable db name schema f =>
      simp only [applyCmd, create_table] at hok ⊢
      rcases hdb : getEntry db s.databases with _ | d <;>
        simp only [hdb] at hok ⊢
      · simp_all
      · rcases ht : getEntry name d.tables with _ | t <;>
          simp only [ht] at hok ⊢
        · simp
        · cases f <;> simp_all
  | dropTable db name f =>
      simp only [applyCmd, drop_table] at hok ⊢
      rcases hdb : getEntry db s.databases with _ | d <;>
        simp only [hdb] at hok ⊢
      · simp_all
      · rcases ht : getEntry name d.tables with _ | t <;>
          simp only [ht] at hok ⊢
        · cases f <;> simp_all
        · simp

/-- Applying any command preserves uniqueness of live database names. -/
theorem applyCmd_nodupKeys (s : CatalogSnapshot) (i : Nat) (cmd : Cmd)
    (h : NodupKeys s.databases) : NodupKeys (applyCmd s i cmd).1.databases := by
  cases cmd with
  | createDatabase name f =>
      simp only [applyCmd, create_database]
      rcases hdb : getEntry name s.databases with _ | d <;> simp only [hdb]
      · simp only [NodupKeys, List.map_cons, List.nodup_cons]
        exact ⟨(getEntry_eq_none name s.databases).mp hdb, h⟩
      · cases f <;> simpa using h
  | dropDatabase name f =>
      simp only [applyCmd, drop_database]
      rcases hdb : getEntry name s.databases with _ | d <;> simp only [hdb]
      · cases f <;> simpa using h
      · exact List.Nodup.sublist (((removeEntry_sublist name s.databases)).map Prod.fst) h
  | createTable db name schema f =>
      simp only [applyCmd, create_table]
      rcases hdb : getEntry db s.databases with _ | d <;> simp only [hdb]
      · simpa using h
      · rcases ht : getEntry name d.tables with _ | t <;> simp only [ht]
        · simpa [NodupKeys, map_fst_setEntry] using h
        · cases f <;> simpa using h
  | dropTable db name f =>
      simp only [applyCmd, drop_table]
      rcases hdb : getEntry db s.databases with _ | d <;> simp only [hdb]
      · simpa using h
      · rcases ht : getEntry name d.tables with _ | t <;> simp only [ht]
        · cases f <;> simpa using h
        · simpa [NodupKeys, map_fst_setEntry] using h

theorem applyAll_nodupKeys (es : List LogEntry) :
    ∀ s : CatalogSnapshot, NodupKeys s.databases →
      NodupKeys (applyAll s es).databases := by
  induction es with
  | nil => exact fun s h => h
  | cons e rest ih =>
      exact fun s h => ih (applyEntry s e) (applyCmd_nodupKeys s e.index e.cmd h)

/-! ## Claim theorems: catalog state machine -/

/-- C2: the Catalog State Machine is deterministic — `apply` is a pure
function of (snapshot, command, index), so replaying any sequence of
committed entries in index order on the freshly initialized state machine
yields exactly the snapshot and the outputs of the original (incremental)
run: the run over `es1 ++ es2` agrees, on both final state and output
sequence, with first running `es1` and then continuing with `es2`. -/
theorem state_machine_deterministic (es1 es2 : List LogEntry) :
    applyAll initSnapshot (es1 ++ es2) = applyAll (applyAll initSnapshot es1) es2 ∧
    runOutputs initSnapshot (es1 ++ es2)
      = runOutputs initSnapshot es1 ++ runOutputs (applyAll initSnapshot es1) es2 :=
  ⟨applyAll_append initSnapshot es1 es2, runOutputs_append es1 es2 initSnapshot⟩

/-- C4: creating the same database twice — the second
`CreateDatabase(name, if_not_exists := false)` fails with AlreadyExists;
with `if_not_exists := true` the second call is a no-op success leaving
`change_version` unchanged; and every successfully applied mutation (any
non-no-op success) strictly increases `change_version`. -/
theorem create_database_idem (s : CatalogSnapshot) (i1 i2 : Nat) (name : String)
    (h : getEntry name s.databases = none) :
    (create_database s i1 name false).2 = .ok (.dbCreated i1) ∧
    (create_database (create_database s i1 name false).1 i2 name false).2
      = .error .AlreadyExists ∧
    (create_database (create_database s i1 name false).1 i2 name true).2
      = .ok .noop ∧
    (create_database (create_database s i1 name false).1 i2 name true).1.change_version
      = (create_database s i1 name false).1.change_version ∧
    (∀ (s' : CatalogSnapshot) (i : Nat) (cmd : Cmd) (eff : Effect),
      (applyCmd s' i cmd).2 = .ok eff → eff ≠ .noop →
      s'.change_version < (applyCmd s' i cmd).1.change_version) := by
  refine ⟨?_, ?_, ?_, ?_, change_version_strict⟩ <;>
    simp [create_database, h, getEntry]

/-- C4 witness: the two concrete calls on the empty catalog. -/
theorem create_database_idem_witness :
    getEntry "db1" initSnapshot.databases = none ∧
    (create_database (create_database initSnapshot 1 "db1" false).1 2 "db1" false).2
      = .error .AlreadyExists :=
  ⟨rfl, (create_database_idem initSnapshot 1 2 "db1" rfl).2.1⟩

/-- C5: dropping a non-existent database — with `if_exists := false` it
fails with NotFound, with `if_exists := true` it is a no-op success, and in
both cases the catalog contents and `change_version` are unchanged. -/
theorem drop_database_missing (s : CatalogSnapshot) (i : Nat) (name : String)
    (h : getEntry name s.databases = none) :
    (drop_database s i name false).2 = .error .NotFound ∧
    (drop_database s i name false).1.databases = s.databases ∧
    (drop_database s i name false).1.change_version = s.change_version ∧
    (drop_database s i name true).2 = .ok .noop ∧
    (drop_database s i name true).1.databases = s.databases ∧
    (drop_database s i name true).1.change_version = s.change_version := by
  simp [drop_database, h]

/-- C5 witness: dropping `"missing"` from the empty catalog. -/
theorem drop_database_missing_witness :
    (drop_database initSnapshot 1 "missing" false).2 = .error .NotFound ∧
    (drop_database initSnapshot 1 "missing" true).2 = .ok .noop :=
  ⟨(drop_database_missing initSnapshot 1 "missing" rfl).1,
    (drop_database_missing initSnapshot 1 "missing" rfl).2.2.2.1⟩

/-- C6: dropping a table inside a non-existent database fails with NotFound
for every value of `if_exists`, leaving the catalog unchanged — the flag
never excuses a missing database. -/
theorem drop_table_missing_db (s : CatalogSnapshot) (i : Nat) (db name : String)
    (if_exists : Bool) (h : getEntry db s.databases = none) :
    (drop_table s i db name if_exists).2 = .error .NotFound ∧
    (drop_table s i db name if_exists).1.databases = s.databases ∧
    (drop_table s i db name if_exists).1.change_version = s.change_version := by
  simp [drop_table, h]

/-- C6 witness: `if_exists := true` still yields NotFound on the empty
catalog. -/
theorem drop_table_missing_db_witness :
    (drop_table initSnapshot 1 "nodb" "t1" true).2 = .error .NotFound :=
  (drop_table_missing_db initSnapshot 1 "nodb" "t1" true rfl).1

/-- C7: in every reachable catalog state, `list_databases` is exactly the
set of live (non-dropped) databases — its names are duplicate-free, and an
entry is listed precisely when `get_database` finds it. -/
theorem list_databases_exact (es : List LogEntry) :
    ((list_databases (applyAll initSnapshot es)).map Prod.fst).Nodup ∧
    ∀ (name : String) (d : DatabaseMeta),
      (name, d) ∈ list_databases (applyAll initSnapshot es)
        ↔ get_database (applyAll initSnapshot es) name = some d := by
  have hnd : NodupKeys (applyAll initSnapshot es).databases :=
    applyAll_nodupKeys es initSnapshot (by simp [initSnapshot, NodupKeys])
  exact ⟨hnd, fun name d => (getEntry_some_iff_mem name d _ hnd).symm⟩

/-- C7 witness: after creating `"db1"`, it is listed and found. -/
theorem list_databases_exact_witness :
    get_database (applyAll initSnapshot [⟨1, 1, .createDatabase "db1" false⟩]) "db1"
      = some ⟨1, 1, []⟩ :=
  ((list_databases_exact [⟨1, 1, .createDatabase "db1" false⟩]).2 "db1" ⟨1, 1, []⟩).mp
    (by simp [applyAll, applyEntry, applyCmd, create_database, initSnapshot,
      list_databases, getEntry])

/-- A committed, successful `create_table` leaves the table visible to
`get_table` on the resulting snapshot. -/
theorem create_table_get (s : CatalogSnapshot) (i : Nat) (db name schema : String)
    (f : Bool) (eff : Effect)
    (hok : (create_table s i db name schema f).2 = .ok eff) :
    ∃ t : TableMeta, get_table (create_table s i db name schema f).1 db name = some t := by
  simp only [create_table] at hok ⊢
  rcases hdb : getEntry db s.databases with _ | d <;> simp only [hdb] at hok ⊢
  · simp at hok
  · rcases ht : getEntry name d.tables with _ | t <;> simp only [ht] at hok ⊢
    · refine ⟨⟨i, schema, i⟩, ?_⟩
      simp only [get_table,
        getEntry_setEntry db { d with tables := (name, ⟨i, schema, i⟩) :: d.tables }
          s.databases d hdb]
      simp [getEntry]
    · cases f with
      | false => simp at hok
      | true =>
          refine ⟨t, ?_⟩
          simp [get_table, hdb, ht]

/-! ## Claim theorems: router and replication -/

/-- C3: cross-node read-after-write.  If a `CreateTable` mutation submitted
through any origin node is acknowledged committed, then a leader read
issued through any other node `b` returns the table rather than none, even
though `b` has not locally applied the entry (its local state is
untouched); moreover a follower never answers a leader read from its own
local state — the answer is always the leader's applied state. -/
theorem cross_node_read_after_write {n : Nat} (sys : RouterSystem n)
    (a b : Fin n) (hb : b ≠ sys.leaderId) (i : Nat) (db name schema : String)
    (f : Bool) (eff : Effect)
    (hok : (submitMutation sys a i (.createTable db name schema f)).2 = .ok eff) :
    (∃ t : TableMeta,
      leaderRead (submitMutation sys a i (.createTable db name schema f)).1 b
        (fun st => get_table st db name) = some t) ∧
    (submitMutation sys a i (.createTable db name schema f)).1.applied b
      = sys.applied b ∧
    (∀ (α : Type) (q : CatalogSnapshot → α),
      leaderRead (submitMutation sys a i (.createTable db name schema f)).1 b q
        = q ((submitMutation sys a i (.createTable db name schema f)).1.applied
            (sys.leaderId))) := by
  have hok' : (applyCmd (sys.applied sys.leaderId) i (.createTable db name schema f)).2
      = .ok eff := hok
  refine ⟨?_, ?_, ?_⟩
  · obtain ⟨t, ht⟩ := create_table_get (sys.applied sys.leaderId) i db name schema f eff hok'
    refine ⟨t, ?_⟩
    simp only [leaderRead, submitMutation, if_neg hb]
    simpa [applyCmd] using ht
  · simp [submitMutation, hb]
  · intro α q
    simp [leaderRead, submitMutation, hb]

/-- A concrete two-node system for the C3 witness: node 0 leads, `"db1"`
exists everywhere, no tables yet. -/
def routerW : RouterSystem 2 :=
  ⟨0, fun _ => ⟨[("db1", ⟨1, 1, []⟩)], 1, 1, 1⟩⟩

/-- C3 witness: submit `CreateTable("db1","t1")` at node 1, leader-read it
back through node 1 (a follower). -/
theorem cross_node_read_after_write_witness :
    ∃ t : TableMeta,
      leaderRead (submitMutation routerW 1 2 (.createTable "db1" "t1" "s" false)).1
        (1 : Fin 2) (fun st => get_table st "db1" "t1") = some t :=
  (cross_node_read_after_write routerW 1 1 (by decide) 2 "db1" "t1" "s" false
    (.tableCreated 2) rfl).1

/-- If the commit scan moves off the current commit index, its result is a
directly commit-eligible index. -/
theorem findCommit_sound {n : Nat} (st : LeaderState n) :
    ∀ k : Nat, findCommit st k ≠ st.commitIndex → commitOk st (findCommit st k) := by
  intro k
  induction k with
  | zero => intro hk; exact absurd rfl hk
  | succ m ih =>
      intro hk
      by_cases hc : commitOk st (m + 1)
      · simp only [findCommit, if_pos hc]
        exact hc
      · have : findCommit st (m + 1) = findCommit st m := by simp [findCommit, hc]
        rw [this] at hk ⊢
        exact ih hk

/-- C8: whenever the leader advances its commit index, the new commit index
is a log position acknowledged as durably replicated by a strict majority
of the `n` nodes (the leader's own acknowledgement included in
`matchIndex`), and the entry there carries the leader's own current term —
entries of prior terms are never the direct target, becoming committed only
transitively as indices at or before the target. -/
theorem commit_advance_sound {n : Nat} (st : LeaderState n)
    (h : advanceCommit st ≠ st.commitIndex) :
    st.commitIndex < advanceCommit st ∧
    advanceCommit st ≤ st.log.length ∧
    IsMajority n (ackCount st (advanceCommit st)) ∧
    termAt st (advanceCommit st) = st.currentTerm :=
  findCommit_sound st st.log.length h

/-- A concrete three-node leader state for the C8 witness: two entries with
terms 1 and 2, current term 2, nodes 0 and 1 acknowledging both. -/
def leaderW : LeaderState 3 :=
  ⟨[1, 2], 2, 0, fun v => if v.val ≤ 1 then 2 else 0⟩

/-- C8 witness: the leader advances from 0 to index 2, a current-term entry
replicated on 2 of 3 nodes. -/
theorem commit_advance_sound_witness :
    leaderW.commitIndex < advanceCommit leaderW ∧
    advanceCommit leaderW ≤ leaderW.log.length ∧
    IsMajority 3 (ackCount leaderW (advanceCommit leaderW)) ∧
    termAt leaderW (advanceCommit leaderW) = leaderW.currentTerm :=
  commit_advance_sound leaderW (by decide)

/-! ## Claim theorems: query-layer source files -/

/-- C9: in `DataArrayLogic::data_array_logic_op`, `Not` takes the unary
negation path; `And` on two arrays computes element-wise boolean AND; every
other operator on two arrays computes element-wise boolean OR (the binary
branch distinguishes only And from not-And); and for any non-`Not` operator
a non-`Array` operand yields a `BadDataValueType` error. -/
theorem data_array_logic_op_spec :
    (∀ args : List DataColumnarValue,
      data_array_logic_op .Not args = data_array_negation (args.getD 0 default)) ∧
    (∀ a b : List Bool, a.length = b.length →
      data_array_logic_op .And [.Array a, .Array b]
        = .ok (List.zipWith (fun x y => x && y) a b)) ∧
    (∀ op : DataValueLogicOperator, op ≠ .Not → op ≠ .And →
      ∀ a b : List Bool, a.length = b.length →
        data_array_logic_op op [.Array a, .Array b]
          = .ok (List.zipWith (fun x y => x || y) a b)) ∧
    (∀ op : DataValueLogicOperator, op ≠ .Not →
      ∀ l r : DataColumnarValue,
        ((∃ v sz, l = .Constant v sz) ∨ (∃ v sz, r = .Constant v sz)) →
        data_array_logic_op op [l, r] = .error .BadDataValueType) := by
  refine ⟨fun args => rfl, ?_, ?_, ?_⟩
  · intro a b hlen
    simp [data_array_logic_op, data_array_logic_binary, arrow_and, hlen]
  · intro op hnot hand a b hlen
    cases op with
    | And => exact absurd rfl hand
    | Not => exact absurd rfl hnot
    | Or => simp [data_array_logic_op, data_array_logic_binary, arrow_or, hlen]
  · intro op hnot l r hc
    cases op with
    | Not => exact absurd rfl hnot
    | And =>
        rcases hc with ⟨v, sz, rfl⟩ | ⟨v, sz, rfl⟩
        · simp [data_array_logic_op, data_array_logic_binary]
        · cases l <;> simp [data_array_logic_op, data_array_logic_binary]
    | Or =>
        rcases hc with ⟨v, sz, rfl⟩ | ⟨v, sz, rfl⟩
        · simp [data_array_logic_op, data_array_logic_binary]
        · cases l <;> simp [data_array_logic_op, data_array_logic_binary]

/-- C9 witness: concrete AND, OR, and mistyped-operand calls. -/
theorem data_array_logic_op_spec_witness :
    data_array_logic_op .And [.Array [true, false], .Array [true, true]]
      = .ok [true, false] ∧
    data_array_logic_op .Or [.Array [true, false], .Array [false, false]]
      = .ok [true, false] ∧
    data_array_logic_op .Or [.Constant (.UInt64 (some 1)) 2, .Array [true, true]]
      = .error .BadDataValueType :=
  ⟨(data_array_logic_op_spec.2.1 [true, false] [true, true] rfl).trans rfl,
    (data_array_logic_op_spec.2.2.1 .Or (by decide) (by decide)
      [true, false] [false, false] rfl).trans rfl,
    data_array_logic_op_spec.2.2.2 .Or (by decide) _ _ (Or.inl ⟨_, _, rfl⟩)⟩

/-- C10: `ParquetTable::try_create` succeeds exactly when the options map
contains the `"location"` key; on success the stored file path is the
location value with all leading and trailing quote characters trimmed and
the remaining fields are passed through; when the key is absent it bails
with an error and no table. -/
theorem parquet_try_create_location {Schema : Type} (db name : String)
    (schema : Schema) (options : TableOptions) :
    (∀ loc : String, getEntry "location" options = some loc →
      ∃ t : ParquetTable Schema,
        ParquetTable.try_create db name schema options = .ok t ∧
        t.file = trimMatches isQuoteChar loc ∧ t.db = db ∧ t.name = name) ∧
    (getEntry "location" options = none →
      ParquetTable.try_create db name schema options
        = .error "Parquet Engine must contains file location options") := by
  constructor
  · intro loc hloc
    refine ⟨⟨db, name, schema, trimMatches isQuoteChar loc⟩, ?_, rfl, rfl, rfl⟩
    simp [ParquetTable.try_create, hloc]
  · intro hnone
    simp [ParquetTable.try_create, hnone]

/-- C10 witness: a quoted location is found and trimmed; a missing location
bails. -/
theorem parquet_try_create_location_witness :
    (∃ t : ParquetTable Unit,
      ParquetTable.try_create "db1" "t1" () [("location", "\"x.parquet\"")] = .ok t ∧
      t.file = trimMatches isQuoteChar "\"x.parquet\"" ∧ t.db = "db1" ∧ t.name = "t1") ∧
    ParquetTable.try_create "db1" "t1" () ([] : TableOptions)
      = .error "Parquet Engine must contains file location options" :=
  ⟨(parquet_try_create_location "db1" "t1" ()
      [("location", "\"x.parquet\"")]).1 "\"x.parquet\"" rfl,
    (parquet_try_create_location "db1" "t1" () ([] : TableOptions)).2 rfl⟩

/-! ## Election safety -/

theorem updNode_nodes {n : Nat} (s : ClusterState n) (j : Fin n) (ns : NodeState n)
    (i : Fin n) : (updNode s j ns).nodes i = if i = j then ns else s.nodes i := rfl

/-- Updating one node so that its recorded votes are preserved can only
grow each candidate's vote set. -/
theorem votesFor_card_le_upd {n : Nat} (s : ClusterState n) (j : Fin n)
    (ns : NodeState n)
    (hpres : ∀ (t : Nat) (c : Fin n),
      (s.nodes j).votedFor t = some c → ns.votedFor t = some c)
    (t : Nat) (c : Fin n) :
    (votesFor s t c).card ≤ (votesFor (updNode s j ns) t c).card := by
  apply Finset.card_le_card
  intro v hv
  simp only [votesFor, Finset.mem_filter, Finset.mem_univ, true_and] at hv ⊢
  rw [updNode_nodes]
  by_cases hvj : v = j
  · subst hvj
    rw [if_pos rfl]
    exact hpres t c hv
  · rw [if_neg hvj]
    exact hv

theorem IsMajority.mono {n k k' : Nat} (h : IsMajority n k) (hle : k ≤ k') :
    IsMajority n k' := by
  simp only [IsMajority] at h ⊢
  omega

/-- Invariant: any node in the Leader role holds recorded votes from a
strict majority for its current term. -/
def LeaderQuorum {n : Nat} (s : ClusterState n) : Prop :=
  ∀ i : Fin n, (s.nodes i).role = Role.Leader →
    IsMajority n (votesFor s ((s.nodes i).currentTerm) i).card

/-- One vote-preserving node update keeps the quorum invariant, provided a
node that ends up Leader either already was Leader at the same term or
carries a majority at its new term. -/
theorem quorum_upd {n : Nat} (s : ClusterState n) (j : Fin n) (ns : NodeState n)
    (hInv : LeaderQuorum s)
    (hpres : ∀ (t : Nat) (c : Fin n),
      (s.nodes j).votedFor t = some c → ns.votedFor t = some c)
    (hleader : ns.role = Role.Leader →
      ((s.nodes j).role = Role.Leader ∧ ns.currentTerm = (s.nodes j).currentTerm)
      ∨ IsMajority n (votesFor s ns.currentTerm j).card) :
    LeaderQuorum (updNode s j ns) := by
  intro i hi
  rw [updNode_nodes] at hi
  have hterm : ((updNode s j ns).nodes i).currentTerm
      = (if i = j then ns else s.nodes i).currentTerm := rfl
  rw [hterm]
  by_cases hij : i = j
  · subst hij
    rw [if_pos rfl] at hi ⊢
    rcases hleader hi with ⟨hrole, hteq⟩ | hmaj
    · rw [hteq]
      exact (hInv i hrole).mono (votesFor_card_le_upd s i ns hpres _ i)
    · exact hmaj.mono (votesFor_card_le_upd s i ns hpres _ i)
  · rw [if_neg hij] at hi ⊢
    exact (hInv i hi).mono (votesFor_card_le_upd s j ns hpres _ i)

/-- Every serialized election transition preserves the quorum invariant. -/
theorem quorum_step {n : Nat} (s : ClusterState n) (e : Event n)
    (hInv : LeaderQuorum s) : LeaderQuorum (step s e) := by
  cases e with
  | timeout j =>
      simp only [step]
      split
      · rename_i hg
        refine quorum_upd s j _ hInv ?_ ?_
        · intro t c hv
          by_cases htj : t = (s.nodes j).currentTerm + 1
          · rw [htj, hg.2] at hv
            exact absurd hv (by simp)
          · simpa [htj] using hv
        · intro h
          exact absurd h (by simp)
      · exact hInv
  | grantVote v c0 t0 =>
      simp only [step]
      split
      · rename_i hg
        refine quorum_upd s v _ hInv ?_ ?_
        · intro t c hv
          by_cases htv : t = t0
          · rw [htv, hg.2] at hv
            exact absurd hv (by simp)
          · simpa [htv] using hv
        · intro h
          have h' : (if (s.nodes v).currentTerm < t0 then Role.Follower
              else (s.nodes v).role) = Role.Leader := h
          by_cases hlt : (s.nodes v).currentTerm < t0
          · rw [if_pos hlt] at h'
            exact absurd h' (by simp)
          · rw [if_neg hlt] at h'
            exact Or.inl ⟨h', Nat.le_antisymm (Nat.not_lt.mp hlt) hg.1⟩
      · exact hInv
  | becomeLeader c0 =>
      simp only [step]
      split
      · rename_i hg
        refine quorum_upd s c0 _ hInv (fun t c hv => hv) ?_
        · intro _
          exact Or.inr hg.2
      · exact hInv
  | observeTerm i0 t0 =>
      simp only [step]
      split
      · refine quorum_upd s i0 _ hInv (fun t c hv => hv) ?_
        intro h
        exact absurd h (by simp)
      · exact hInv
  | heardLeader i0 =>
      simp only [step]
      split
      · refine quorum_upd s i0 _ hInv (fun t c hv => hv) ?_
        intro h
        exact absurd h (by simp)
      · exact hInv

theorem quorum_init (n : Nat) : LeaderQuorum (initCluster n) := by
  intro i hi
  exact absurd hi (by simp [initCluster])

theorem quorum_foldl {n : Nat} (evs : List (Event n)) :
    ∀ s : ClusterState n, LeaderQuorum s → LeaderQuorum (evs.foldl step s) := by
  induction evs with
  | nil => exact fun s h => h
  | cons e rest ih => exact fun s h => ih (step s e) (quorum_step s e h)

theorem quorum_run {n : Nat} (evs : List (Event n)) :
    LeaderQuorum (runCluster n evs) :=
  quorum_foldl evs (initCluster n) (quorum_init n)

/-- Two strict-majority vote sets for the same term intersect, and a node
votes at most once per term, so two Leaders at one term coincide. -/
theorem leaders_unique_of_quorum {n : Nat} (s : ClusterState n)
    (h : LeaderQuorum s) (i j : Fin n)
    (hi : (s.nodes i).role = Role.Leader) (hj : (s.nodes j).role = Role.Leader)
    (ht : (s.nodes i).currentTerm = (s.nodes j).currentTerm) : i = j := by
  have h1 := h i hi
  have h2 := h j hj
  rw [ht] at h1
  have hunion :
      (votesFor s ((s.nodes j).currentTerm) i ∪
        votesFor s ((s.nodes j).currentTerm) j).card ≤ n := by
    calc (votesFor s ((s.nodes j).currentTerm) i ∪
            votesFor s ((s.nodes j).currentTerm) j).card
        ≤ (Finset.univ : Finset (Fin n)).card := Finset.card_le_univ _
      _ = n := by simp
  have hcard := Finset.card_union_add_card_inter
    (votesFor s ((s.nodes j).currentTerm) i)
    (votesFor s ((s.nodes j).currentTerm) j)
  simp only [IsMajority] at h1 h2
  have hpos : 0 < (votesFor s ((s.nodes j).currentTerm) i ∩
      votesFor s ((s.nodes j).currentTerm) j).card := by omega
  obtain ⟨v, hv⟩ := Finset.card_pos.mp hpos
  rw [Finset.mem_inter] at hv
  simp only [votesFor, Finset.mem_filter, Finset.mem_univ, true_and] at hv
  exact Option.some.inj (hv.1.symm.trans hv.2)

/-- C1: election safety — in every reachable cluster state, at most one
node is in the Leader role for any given term: two nodes both in the
Leader role with the same current term are the same node. -/
theorem election_safety (n : Nat) (evs : List (Event n)) (i j : Fin n)
    (hi : ((runCluster n evs).nodes i).role = Role.Leader)
    (hj : ((runCluster n evs).nodes j).role = Role.Leader)
    (ht : ((runCluster n evs).nodes i).currentTerm
      = ((runCluster n evs).nodes j).currentTerm) :
    i = j :=
  leaders_unique_of_quorum (runCluster n evs) (quorum_run evs) i j hi hj ht

/-- A concrete three-node election for the C1 witness: node 0 times out,
wins node 1's vote for term 1, and becomes Leader. -/
def electionW : List (Event 3) :=
  [.timeout 0, .grantVote 1 0 1, .becomeLeader 0]

/-- C1 witness: the concrete election produces a Leader, and the theorem
applies to it. -/
theorem election_safety_witness :
    ((runCluster 3 electionW).nodes 0).role = Role.Leader ∧ (0 : Fin 3) = 0 :=
  ⟨by decide, election_safety 3 electionW 0 0 (by decide) (by decide) rfl⟩

end Datafuse
